import Mathlib

/-!
Verification of the crawl-coordination specification of the
Beautiful-Soup-vs-Scrapy comparison repository.

The repository's own code (src/main.py) contains two Scrapy spiders and a
Beautiful Soup demo.  The crawl coordination itself (frontier, visited set,
deduplication, FIFO scheduling) lives in the external Scrapy framework, not
under src/, so the coordinator is modelled from the specification text
(section 4.1 of the spec).  The item-extraction callbacks
(`QuotesSpider.parse`, `AdvancedSpider.parse_author`) are embedded directly
from src/main.py.
-/

section CrawlModel

variable {L P I : Type}

/-- Modelled from the spec: the per-crawl mutable state that the Coordinator
owns.  `frontier` is the ordered collection of Locations awaiting visit
(FIFO), `visited` the set of already-fetched Locations (kept as a duplicate
free list in fetch order), `output` the emitted Item sequence, and
`failures` the log of Locations whose fetch failed. -/
structure CState (L I : Type) where
  frontier : List L
  visited : List L
  output : List I
  failures : List L
deriving DecidableEq

/-- Modelled from the spec: appending discovered candidate Locations to the
Frontier.  Each candidate not already in Visited and not already in the
Frontier is appended at the back; others are dropped (re-discovery is a
no-op). -/
def enqueue [DecidableEq L] (fr vis links : List L) : List L :=
  links.foldl (fun f l => if l ∈ vis ∨ l ∈ f then f else f ++ [l]) fr

/-- Modelled from the spec: one iteration of the Coordinator loop.  Pop the
next Location from the Frontier (FIFO); if already in Visited, skip; else
fetch the Page via the external Fetcher (which may fail), mark the Location
visited, and on success call `extract`, emit its Items and enqueue its
candidate Locations.  On fetch failure the Location's branch is abandoned:
the failure is logged in `failures` and the crawl continues. -/
def step [DecidableEq L] (fetch : L → Option P) (extract : P → List I × List L)
    (s : CState L I) : CState L I :=
  match s.frontier with
  | [] => s
  | loc :: rest =>
    if loc ∈ s.visited then { s with frontier := rest }
    else
      match fetch loc with
      | none => ⟨rest, s.visited ++ [loc], s.output, s.failures ++ [loc]⟩
      | some page =>
        let vis := s.visited ++ [loc]
        ⟨enqueue rest vis (extract page).2, vis, s.output ++ (extract page).1, s.failures⟩

/-- Modelled from the spec: the Coordinator loop, iterated until the
Frontier empties.  The source framework has no depth or page cap, so the
loop need not terminate on an unbounded link graph; the model makes the
iteration count explicit as `fuel`. -/
def crawlLoop [DecidableEq L] (fetch : L → Option P) (extract : P → List I × List L) :
    Nat → CState L I → CState L I
  | 0, s => s
  | fuel + 1, s =>
    match s.frontier with
    | [] => s
    | _ :: _ => crawlLoop fetch extract fuel (step fetch extract s)

/-- Modelled from the spec: configuration errors surfaced immediately to the
caller before any fetch occurs. -/
inductive ConfigError where
  | emptyStartList
deriving DecidableEq

/-- Modelled from the spec: `crawl(start_locations, extract)` with the
Fetcher injected.  An empty start list is a configuration error surfaced
immediately, before any fetch; otherwise the Frontier is seeded with the
start Locations and the loop runs with the given fuel. -/
def crawl [DecidableEq L] (fetch : L → Option P) (extract : P → List I × List L)
    (starts : List L) (fuel : Nat) : Except ConfigError (CState L I) :=
  if starts.isEmpty then .error .emptyStartList
  else .ok (crawlLoop fetch extract fuel ⟨starts, [], [], []⟩)

/-- Modelled from the spec: the two-transition lifecycle of a Location,
`unseen → queued` on discovery and `queued → visited` on fetch. -/
inductive LocState where
  | unseen
  | queued
  | visited
deriving DecidableEq

/-- Modelled from the spec: the logical state of a Location in a crawl
state. -/
def locState [DecidableEq L] (l : L) (s : CState L I) : LocState :=
  if l ∈ s.visited then .visited else if l ∈ s.frontier then .queued else .unseen

/-- Numeric rank of a Location state, ordering `unseen < queued < visited`. -/
def rank : LocState → Nat
  | .unseen => 0
  | .queued => 1
  | .visited => 2

end CrawlModel

section SrcModel

/-- A Python value appearing as a field of an emitted item in src/main.py:
`None`, a string, or a list of strings. -/
inductive PyVal where
  | pyNone
  | pyStr (s : String)
  | pyList (ss : List String)
deriving DecidableEq

/-- Conversion of a selector `.get()` result to the emitted field value:
Python `None` when the selector matched nothing, the string otherwise. -/
def optVal : Option String → PyVal
  | none => .pyNone
  | some s => .pyStr s

/-- Whether a field value is a string or an ordered sequence of strings. -/
def isStrOrList : PyVal → Bool
  | .pyNone => false
  | .pyStr _ => true
  | .pyList _ => true

/-- Selector results for one `div.quote` element of a response, as queried
by `QuotesSpider.parse` and `AdvancedSpider.parse` in src/main.py:
`span.text::text` and `small.author::text` via `.get()` (optional),
`a.tag::text` via `.getall()` (list), and `small.author + a::attr(href)`
via `.get()` (optional). -/
structure QuoteSel where
  textSel : Option String
  authorSel : Option String
  tagsSel : List String
  authorHref : Option String
deriving DecidableEq

/-- The quote item yielded for one `div.quote` by `QuotesSpider.parse`
(src/main.py lines 91-96) and `AdvancedSpider.parse` (lines 116-122):
fields `text` and `author` from `.get()` (so possibly `None`), field
`tags` from `.getall()` (always a list of strings). -/
def quoteItem (q : QuoteSel) : List (String × PyVal) :=
  [("text", optVal q.textSel), ("author", optVal q.authorSel), ("tags", .pyList q.tagsSel)]

/-- A Python runtime error raised by the embedded callbacks. -/
inductive PyError where
  | attributeErrorNoneHasNoStrip
deriving DecidableEq

/-- Selector results for an author page, as queried by
`AdvancedSpider.parse_author` in src/main.py lines 138-143. -/
structure AuthorSel where
  nameSel : Option String
  birthDateSel : Option String
  birthLocationSel : Option String
  descriptionSel : Option String
deriving DecidableEq

/-- Embedding of `AdvancedSpider.parse_author` (src/main.py lines 134-143).
The fields `name`, `birth_date` and `birth_location` use `.get()` and are
emitted as-is, possibly `None`; the `description` field calls
`.get().strip()`, which raises `AttributeError` when the
`div.author-description::text` selector matched nothing (`.get()` returned
`None`), so no item is emitted in that case. -/
def parse_author (r : AuthorSel) : Except PyError (List (String × PyVal)) :=
  match r.descriptionSel with
  | none => .error .attributeErrorNoneHasNoStrip
  | some d =>
    .ok [("name", optVal r.nameSel), ("birth_date", optVal r.birthDateSel),
         ("birth_location", optVal r.birthLocationSel), ("description", .pyStr d.trim)]

end SrcModel

section Helpers

variable {L P I : Type} [DecidableEq L]

/-- The Coordinator loop is inert on an empty Frontier. -/
theorem crawlLoop_nil (fetch : L → Option P) (extract : P → List I × List L)
    (fuel : Nat) (v : List L) (o : List I) (fl : List L) :
    crawlLoop fetch extract fuel ⟨[], v, o, fl⟩ = ⟨[], v, o, fl⟩ := by
  cases fuel <;> rfl

/-- Unfolding of one loop iteration on a non-empty Frontier. -/
theorem crawlLoop_succ_cons (fetch : L → Option P) (extract : P → List I × List L)
    (n : Nat) (s : CState L I) (loc : L) (rest : List L)
    (hfr : s.frontier = loc :: rest) :
    crawlLoop fetch extract (n + 1) s = crawlLoop fetch extract n (step fetch extract s) := by
  show (match s.frontier with
    | [] => s
    | _ :: _ => crawlLoop fetch extract n (step fetch extract s)) = _
  rw [hfr]

/-- The loop stops once the Frontier is empty. -/
theorem crawlLoop_succ_nil (fetch : L → Option P) (extract : P → List I × List L)
    (n : Nat) (s : CState L I) (hfr : s.frontier = []) :
    crawlLoop fetch extract (n + 1) s = s := by
  show (match s.frontier with
    | [] => s
    | _ :: _ => crawlLoop fetch extract n (step fetch extract s)) = _
  rw [hfr]

/-- Enqueueing candidate Locations only appends at the back of the
Frontier: the existing queue is preserved as a prefix. -/
theorem enqueue_extends (links fr vis : List L) :
    ∃ t, enqueue fr vis links = fr ++ t := by
  induction links generalizing fr with
  | nil => exact ⟨[], by simp [enqueue]⟩
  | cons l ls ih =>
    by_cases h : l ∈ vis ∨ l ∈ fr
    · obtain ⟨t, ht⟩ := ih fr
      exact ⟨t, by simpa [enqueue, h] using ht⟩
    · obtain ⟨t, ht⟩ := ih (fr ++ [l])
      exact ⟨[l] ++ t, by simpa [enqueue, h, List.append_assoc] using ht⟩

/-- Membership in the Frontier survives enqueueing. -/
theorem mem_enqueue_of_mem {l : L} {fr : List L} (vis links : List L)
    (h : l ∈ fr) : l ∈ enqueue fr vis links := by
  obtain ⟨t, ht⟩ := enqueue_extends links fr vis
  rw [ht]
  exact List.mem_append_left t h

/-- Case analysis of one Coordinator iteration: empty Frontier, skip of an
already-visited Location, fetch failure, or successful fetch and extract. -/
theorem step_cases (fetch : L → Option P) (extract : P → List I × List L)
    (s : CState L I) :
    (s.frontier = [] ∧ step fetch extract s = s)
    ∨ (∃ loc rest, s.frontier = loc :: rest ∧ loc ∈ s.visited
        ∧ step fetch extract s = { s with frontier := rest })
    ∨ (∃ loc rest, s.frontier = loc :: rest ∧ loc ∉ s.visited ∧ fetch loc = none
        ∧ step fetch extract s = ⟨rest, s.visited ++ [loc], s.output, s.failures ++ [loc]⟩)
    ∨ (∃ loc rest page, s.frontier = loc :: rest ∧ loc ∉ s.visited ∧ fetch loc = some page
        ∧ step fetch extract s =
          ⟨enqueue rest (s.visited ++ [loc]) (extract page).2, s.visited ++ [loc],
           s.output ++ (extract page).1, s.failures⟩) := by
  cases hfr : s.frontier with
  | nil => exact Or.inl ⟨rfl, by simp [step, hfr]⟩
  | cons loc rest =>
    by_cases hv : loc ∈ s.visited
    · exact Or.inr (Or.inl ⟨loc, rest, rfl, hv, by simp [step, hfr, hv]⟩)
    · cases hf : fetch loc with
      | none =>
        exact Or.inr (Or.inr (Or.inl ⟨loc, rest, rfl, hv, hf, by simp [step, hfr, hv, hf]⟩))
      | some page =>
        exact Or.inr (Or.inr (Or.inr ⟨loc, rest, page, rfl, hv, hf,
          by simp [step, hfr, hv, hf]⟩))

/-- One Coordinator iteration keeps the Visited set duplicate free: a
Location is only appended when it is not yet visited. -/
theorem step_visited_nodup (fetch : L → Option P) (extract : P → List I × List L)
    (s : CState L I) (h : s.visited.Nodup) : (step fetch extract s).visited.Nodup := by
  rcases step_cases fetch extract s with ⟨_, he⟩ | ⟨loc, rest, _, _, he⟩
    | ⟨loc, rest, _, hv, _, he⟩ | ⟨loc, rest, page, _, hv, _, he⟩ <;> rw [he]
  · exact h
  · exact h
  · simpa [List.nodup_append, h] using hv
  · simpa [List.nodup_append, h] using hv

/-- The whole Coordinator loop keeps the Visited set duplicate free. -/
theorem crawlLoop_visited_nodup (fetch : L → Option P) (extract : P → List I × List L)
    (fuel : Nat) (s : CState L I) (h : s.visited.Nodup) :
    (crawlLoop fetch extract fuel s).visited.Nodup := by
  induction fuel generalizing s with
  | zero => exact h
  | succ n ih =>
    cases hfr : s.frontier with
    | nil =>
      rw [crawlLoop_succ_nil fetch extract n s hfr]
      exact h
    | cons loc rest =>
      rw [crawlLoop_succ_cons fetch extract n s loc rest hfr]
      exact ih _ (step_visited_nodup fetch extract s h)

/-- Re-discovery of a Location already in the Visited set or already in the
Frontier leaves the Frontier unchanged. -/
theorem enqueue_rediscovery {l : L} {fr vis : List L} (h : l ∈ vis ∨ l ∈ fr) :
    enqueue fr vis [l] = fr := by
  simp [enqueue, h]

/-- One Coordinator iteration is insensitive to which of two pointwise
equal Fetchers and extract functions is used. -/
theorem step_congr {f1 f2 : L → Option P} {e1 e2 : P → List I × List L}
    (hf : ∀ l, f1 l = f2 l) (he : ∀ p, e1 p = e2 p) (s : CState L I) :
    step f1 e1 s = step f2 e2 s := by
  cases hfr : s.frontier with
  | nil => simp [step, hfr]
  | cons loc rest =>
    by_cases hv : loc ∈ s.visited
    · simp [step, hfr, hv]
    · cases hfl : f1 loc with
      | none =>
        have hf2 : f2 loc = none := by rw [← hf loc]; exact hfl
        simp [step, hfr, hv, hfl, hf2]
      | some page =>
        have hf2 : f2 loc = some page := by rw [← hf loc]; exact hfl
        simp [step, hfr, hv, hfl, hf2, he page]

/-- The Coordinator loop is insensitive to which of two pointwise equal
Fetchers and extract functions is used. -/
theorem crawlLoop_congr {f1 f2 : L → Option P} {e1 e2 : P → List I × List L}
    (hf : ∀ l, f1 l = f2 l) (he : ∀ p, e1 p = e2 p) (fuel : Nat) (s : CState L I) :
    crawlLoop f1 e1 fuel s = crawlLoop f2 e2 fuel s := by
  induction fuel generalizing s with
  | zero => rfl
  | succ n ih =>
    cases hfr : s.frontier with
    | nil =>
      rw [crawlLoop_succ_nil f1 e1 n s hfr, crawlLoop_succ_nil f2 e2 n s hfr]
    | cons loc rest =>
      rw [crawlLoop_succ_cons f1 e1 n s loc rest hfr,
        crawlLoop_succ_cons f2 e2 n s loc rest hfr, step_congr hf he s]
      exact ih _

/-- Characterization of the `unseen` state: neither visited nor queued. -/
theorem locState_eq_unseen {l : L} {s : CState L I} :
    locState l s = .unseen ↔ l ∉ s.visited ∧ l ∉ s.frontier := by
  unfold locState
  split_ifs with h1 h2 <;> simp_all

/-- Characterization of the `visited` state: membership in the Visited set. -/
theorem locState_eq_visited {l : L} {s : CState L I} :
    locState l s = .visited ↔ l ∈ s.visited := by
  unfold locState
  split_ifs with h1 h2 <;> simp_all

/-- A Location in the Visited set is in the `visited` state. -/
theorem locState_of_mem_visited {l : L} {s : CState L I} (h : l ∈ s.visited) :
    locState l s = .visited := by
  simp [locState, h]

/-- A Location in the Frontier but not yet visited is in the `queued`
state. -/
theorem locState_of_mem_frontier {l : L} {s : CState L I} (h1 : l ∉ s.visited)
    (h2 : l ∈ s.frontier) : locState l s = .queued := by
  simp [locState, h1, h2]

/-- A Location already in the Visited set of a crawl state has rank 2. -/
theorem two_le_rank_mk {l : L} (fr vis : List L) (o : List I) (fl : List L)
    (h : l ∈ vis) : 2 ≤ rank (locState l ⟨fr, vis, o, fl⟩) := by
  have hv : locState l (⟨fr, vis, o, fl⟩ : CState L I) = .visited :=
    locState_of_mem_visited h
  rw [hv]
  decide

/-- A Location in the Visited set or the Frontier of a crawl state has
rank at least 1. -/
theorem one_le_rank_mk {l : L} (fr vis : List L) (o : List I) (fl : List L)
    (h : l ∈ vis ∨ l ∈ fr) : 1 ≤ rank (locState l ⟨fr, vis, o, fl⟩) := by
  by_cases h1 : l ∈ vis
  · have hv : locState l (⟨fr, vis, o, fl⟩ : CState L I) = .visited :=
      locState_of_mem_visited h1
    rw [hv]
    decide
  · have hq : locState l (⟨fr, vis, o, fl⟩ : CState L I) = .queued :=
      locState_of_mem_frontier h1 (h.resolve_left h1)
    rw [hq]
    decide

end Helpers

section Scenarios

/-- Modelled from the spec: a deterministic Fetcher that always succeeds,
returning the Location itself as its Page. -/
def okFetch {L : Type} (l : L) : Option L := some l

/-- Modelled from the spec: a deterministic Fetcher that fails exactly on
Location `B` (a network or status failure for that one Location) and
succeeds everywhere else. -/
def failFetch {L : Type} [DecidableEq L] (B l : L) : Option L :=
  if l = B then none else some l

/-- Modelled from the spec: extraction over the cyclic link graph A → B → A,
returning `itemsA` and the link to B on page A, and `itemsB` and the link
back to A on page B. -/
def cycleExtract {L I : Type} [DecidableEq L] (A B : L) (itemsA itemsB : List I) (p : L) :
    List I × List L :=
  if p = A then (itemsA, [B]) else if p = B then (itemsB, [A]) else ([], [])

/-- Modelled from the spec: extraction over the two-page chain where page A
yields `item1` and the link to B, and page B yields `item2` and no links. -/
def chainExtract {L I : Type} [DecidableEq L] (A B : L) (item1 item2 : I) (p : L) :
    List I × List L :=
  if p = A then ([item1], [B]) else if p = B then ([item2], []) else ([], [])

/-- Modelled from the spec: extraction over the branching graph where page
A yields `item1` and links to both B and C, page C yields `item3` and no
links, and every other page yields nothing. -/
def branchExtract {L I : Type} [DecidableEq L] (A B C : L) (item1 item3 : I) (p : L) :
    List I × List L :=
  if p = A then ([item1], [B, C]) else if p = C then ([item3], []) else ([], [])

/-- Link structure of the diamond example: location 0 (A) links to 1 (B)
and 2 (C), and both B and C link to 3 (D). -/
def diamondLinks : Nat → List Nat
  | 0 => [1, 2]
  | 1 => [3]
  | 2 => [3]
  | _ => []

/-- Extraction for the diamond example: each page yields one item (its own
location) and its diamond links. -/
def diamondExtract (p : Nat) : List Nat × List Nat := ([p], diamondLinks p)

end Scenarios

section Claims

/-- C1: For every crawl and every Location D, D is fetched at most once
(the Visited set, which logs exactly the Locations on which the Fetcher was
invoked, never holds duplicates), and in the diamond graph where start
location 0 (A) links to 1 (B) and 2 (C) and both B and C link to 3 (D), the
crawl fetches D exactly once: D occurs exactly once in the Visited log. -/
theorem crawl_dedup_invariant :
    (∀ (L P I : Type) [DecidableEq L] (fetch : L → Option P)
        (extract : P → List I × List L) (starts : List L) (fuel : Nat)
        (r : CState L I), crawl fetch extract starts fuel = .ok r → r.visited.Nodup)
    ∧ crawl okFetch diamondExtract [0] 5
        = .ok (⟨[], [0, 1, 2, 3], [0, 1, 2, 3], []⟩ : CState Nat Nat)
    ∧ List.count 3 [0, 1, 2, 3] = 1 := by
  refine ⟨?_, rfl, by decide⟩
  intro L P I _ fetch extract starts fuel r h
  by_cases hs : starts.isEmpty <;> simp [crawl, hs] at h
  rw [← h]
  exact crawlLoop_visited_nodup fetch extract fuel _ (by simp)

/-- Witness for C1 at the diamond instance: the Visited log of the diamond
crawl is duplicate free and fetches D (location 3) exactly once. -/
theorem crawl_dedup_invariant_witness :
    List.Nodup [0, 1, 2, 3] ∧ List.count 3 [0, 1, 2, 3] = 1 :=
  ⟨crawl_dedup_invariant.1 Nat Nat Nat okFetch diamondExtract [0] 5
      ⟨[], [0, 1, 2, 3], [0, 1, 2, 3], []⟩ crawl_dedup_invariant.2.1,
   crawl_dedup_invariant.2.2⟩

/-- C6: Running the crawl twice with the same start Locations and the same
deterministic Fetcher and extract functions (two collaborators answering
pointwise identically on every Location and Page) yields the same result,
in particular the same Item sequence, both times. -/
theorem crawl_deterministic :
    ∀ (L P I : Type) [DecidableEq L] (f1 f2 : L → Option P)
      (e1 e2 : P → List I × List L),
    (∀ l, f1 l = f2 l) → (∀ p, e1 p = e2 p) →
    ∀ (starts : List L) (fuel : Nat),
    crawl f1 e1 starts fuel = crawl f2 e2 starts fuel := by
  intro L P I _ f1 f2 e1 e2 hf he starts fuel
  by_cases hs : starts.isEmpty <;>
    simp [crawl, hs, crawlLoop_congr hf he fuel]

/-- Witness for C6: two runs of the diamond crawl with the same Fetcher and
extract functions agree. -/
theorem crawl_deterministic_witness :
    crawl okFetch diamondExtract [0] 5 = crawl okFetch diamondExtract [0] 5 :=
  crawl_deterministic Nat Nat Nat okFetch okFetch diamondExtract diamondExtract
    (fun _ => rfl) (fun _ => rfl) [0] 5

/-- C8: When a Location at the head of the Frontier is fetched
successfully, all Items extracted from its Page are emitted together, as a
contiguous block appended in extraction order to the output, before the
crawl moves on; and the discovered Locations are appended behind the
existing Frontier, whose order is preserved, so traversal follows FIFO
discovery order. -/
theorem page_items_contiguous_fifo :
    ∀ (L P I : Type) [DecidableEq L] (fetch : L → Option P)
      (extract : P → List I × List L) (s : CState L I) (loc : L)
      (rest : List L) (page : P),
    s.frontier = loc :: rest → loc ∉ s.visited → fetch loc = some page →
    (step fetch extract s).output = s.output ++ (extract page).1
    ∧ ∃ t, (step fetch extract s).frontier = rest ++ t := by
  intro L P I _ fetch extract s loc rest page hfr hv hf
  constructor
  · simp [step, hfr, hv, hf]
  · obtain ⟨t, ht⟩ := enqueue_extends (extract page).2 rest (s.visited ++ [loc])
    exact ⟨t, by simp [step, hfr, hv, hf, ht]⟩

/-- Witness for C8 at a concrete state: fetching location 0 of the diamond
graph from the Frontier [0, 1] emits its one item contiguously and keeps
location 1 at the front of the Frontier. -/
theorem page_items_contiguous_fifo_witness :
    (step okFetch diamondExtract (⟨[0, 1], [], [], []⟩ : CState Nat Nat)).output
      = [] ++ (diamondExtract 0).1
    ∧ ∃ t, (step okFetch diamondExtract (⟨[0, 1], [], [], []⟩ : CState Nat Nat)).frontier
      = [1] ++ t :=
  page_items_contiguous_fifo Nat Nat Nat okFetch diamondExtract
    ⟨[0, 1], [], [], []⟩ 0 [1] 0 rfl (by decide) rfl

/-- C9: Calling the crawl with an empty start list is a configuration
error surfaced immediately to the caller: the result is the
`emptyStartList` error and never a crawl result, so the loop (and with it
the Fetcher) is never invoked and no Location is ever fetched. -/
theorem crawl_empty_start_error :
    ∀ (L P I : Type) [DecidableEq L] (fetch : L → Option P)
      (extract : P → List I × List L) (fuel : Nat),
    crawl fetch extract ([] : List L) fuel = .error .emptyStartList
    ∧ ∀ r : CState L I, crawl fetch extract [] fuel ≠ .ok r := by
  intro L P I _ fetch extract fuel
  refine ⟨by simp [crawl], ?_⟩
  intro r h
  simp [crawl] at h

/-- C5: Every Location moves through at most the transitions
`unseen → queued` (on discovery) and `queued → visited` (on fetch): no
Coordinator step ever lowers the rank of a Location's state, no step takes
an `unseen` Location straight to `visited`, and re-discovering a Location
that is already queued or visited leaves the Frontier unchanged (enqueueing
never touches the Visited set, so it is unchanged as well). -/
theorem location_state_monotone :
    ∀ (L P I : Type) [DecidableEq L] (fetch : L → Option P)
      (extract : P → List I × List L),
    (∀ (s : CState L I) (l : L),
        rank (locState l s) ≤ rank (locState l (step fetch extract s)))
    ∧ (∀ (s : CState L I) (l : L), locState l s = .unseen →
        locState l (step fetch extract s) ≠ .visited)
    ∧ (∀ (fr vis : List L) (l : L), l ∈ vis ∨ l ∈ fr → enqueue fr vis [l] = fr) := by
  intro L P I _ fetch extract
  refine ⟨?_, ?_, fun fr vis l h => enqueue_rediscovery h⟩
  · intro s l
    rcases step_cases fetch extract s with ⟨hfr, he⟩ | ⟨loc, rest, hfr, hv, he⟩
      | ⟨loc, rest, hfr, hv, hf, he⟩ | ⟨loc, rest, page, hfr, hv, hf, he⟩ <;> rw [he]
    · by_cases h1 : l ∈ s.visited
      · rw [locState_of_mem_visited h1]
        exact two_le_rank_mk _ _ _ _ h1
      · by_cases h2 : l ∈ s.frontier
        · have h3 : l ∈ rest := by
            rw [hfr] at h2
            rcases List.mem_cons.mp h2 with h4 | h4
            · exact absurd hv (h4 ▸ h1)
            · exact h4
          rw [locState_of_mem_frontier h1 h2]
          exact one_le_rank_mk _ _ _ _ (Or.inr h3)
        · rw [locState_eq_unseen.mpr ⟨h1, h2⟩]
          exact Nat.zero_le _
    · by_cases h1 : l ∈ s.visited
      · rw [locState_of_mem_visited h1]
        exact two_le_rank_mk _ _ _ _ (List.mem_append_left _ h1)
      · by_cases h2 : l ∈ s.frontier
        · rw [locState_of_mem_frontier h1 h2]
          by_cases hl : l = loc
          · exact one_le_rank_mk _ _ _ _
              (Or.inl (List.mem_append_right _ (by simp [hl])))
          · have h3 : l ∈ rest := by
              rw [hfr] at h2
              rcases List.mem_cons.mp h2 with h4 | h4
              · exact absurd h4 hl
              · exact h4
            exact one_le_rank_mk _ _ _ _ (Or.inr h3)
        · rw [locState_eq_unseen.mpr ⟨h1, h2⟩]
          exact Nat.zero_le _
    · by_cases h1 : l ∈ s.visited
      · rw [locState_of_mem_visited h1]
        exact two_le_rank_mk _ _ _ _ (List.mem_append_left _ h1)
      · by_cases h2 : l ∈ s.frontier
        · rw [locState_of_mem_frontier h1 h2]
          by_cases hl : l = loc
          · exact one_le_rank_mk _ _ _ _
              (Or.inl (List.mem_append_right _ (by simp [hl])))
          · have h3 : l ∈ rest := by
              rw [hfr] at h2
              rcases List.mem_cons.mp h2 with h4 | h4
              · exact absurd h4 hl
              · exact h4
            exact one_le_rank_mk _ _ _ _
              (Or.inr (mem_enqueue_of_mem _ _ h3))
        · rw [locState_eq_unseen.mpr ⟨h1, h2⟩]
          exact Nat.zero_le _
  · intro s l hun hvis
    rw [locState_eq_unseen] at hun
    rw [locState_eq_visited] at hvis
    rcases step_cases fetch extract s with ⟨hfr, he⟩ | ⟨loc, rest, hfr, hv, he⟩
      | ⟨loc, rest, hfr, hv, hf, he⟩ | ⟨loc, rest, page, hfr, hv, hf, he⟩ <;>
      rw [he] at hvis
    · exact hun.1 hvis
    · exact hun.1 hvis
    · rcases List.mem_append.mp hvis with h | h
      · exact hun.1 h
      · have hleq : l = loc := by simpa using h
        exact hun.2 (by rw [hfr, hleq]; exact List.mem_cons_self _ _)
    · rcases List.mem_append.mp hvis with h | h
      · exact hun.1 h
      · have hleq : l = loc := by simpa using h
        exact hun.2 (by rw [hfr, hleq]; exact List.mem_cons_self _ _)

/-- Witness for C5 at a concrete step of the diamond crawl: the rank of
location 1 does not drop, an unseen location 7 does not jump to `visited`,
and re-discovering the queued location 2 leaves the Frontier unchanged. -/
theorem location_state_monotone_witness :
    rank (locState 1 (⟨[0], [], [], []⟩ : CState Nat Nat))
      ≤ rank (locState 1 (step okFetch diamondExtract ⟨[0], [], [], []⟩))
    ∧ locState 7 (step okFetch diamondExtract (⟨[0], [], [], []⟩ : CState Nat Nat))
      ≠ .visited
    ∧ enqueue [2] [0, 1] [2] = [2] :=
  ⟨(location_state_monotone Nat Nat Nat okFetch diamondExtract).1 ⟨[0], [], [], []⟩ 1,
   (location_state_monotone Nat Nat Nat okFetch diamondExtract).2.1
     ⟨[0], [], [], []⟩ 7 (by decide),
   (location_state_monotone Nat Nat Nat okFetch diamondExtract).2.2 [2] [0, 1] 2
     (Or.inr (by decide))⟩

/-- C2: The crawl over a link graph with a cycle (A links to B and B links
back to A) terminates: with fuel at least 3 the loop reaches an empty
Frontier (the Visited set breaks the cycle), and the Items extracted from
A and from B each appear exactly once, the output being exactly
`itemsA ++ itemsB`. -/
theorem crawl_cycle_terminates :
    ∀ (L I : Type) [DecidableEq L] (A B : L) (itemsA itemsB : List I) (fuel : Nat),
    A ≠ B → 3 ≤ fuel →
    crawl okFetch (cycleExtract A B itemsA itemsB) [A] fuel
      = .ok ⟨[], [A, B], itemsA ++ itemsB, []⟩ := by
  intro L I _ A B itemsA itemsB fuel hAB hfuel
  obtain ⟨k, rfl⟩ : ∃ k, fuel = k + 3 := ⟨fuel - 3, by omega⟩
  have hBA : B ≠ A := Ne.symm hAB
  have hs1 : step okFetch (cycleExtract A B itemsA itemsB) ⟨[A], [], [], []⟩
      = (⟨[B], [A], itemsA, []⟩ : CState L I) := by
    simp [step, okFetch, cycleExtract, enqueue, hBA]
  have hs2 : step okFetch (cycleExtract A B itemsA itemsB) ⟨[B], [A], itemsA, []⟩
      = (⟨[], [A, B], itemsA ++ itemsB, []⟩ : CState L I) := by
    simp [step, okFetch, cycleExtract, enqueue, hBA]
  have e1 : crawlLoop okFetch (cycleExtract A B itemsA itemsB) (k + 3)
        (⟨[A], [], [], []⟩ : CState L I)
      = crawlLoop okFetch (cycleExtract A B itemsA itemsB) (k + 2)
        (step okFetch (cycleExtract A B itemsA itemsB) ⟨[A], [], [], []⟩) :=
    crawlLoop_succ_cons _ _ (k + 2) _ A [] rfl
  have e2 : crawlLoop okFetch (cycleExtract A B itemsA itemsB) (k + 2)
        (⟨[B], [A], itemsA, []⟩ : CState L I)
      = crawlLoop okFetch (cycleExtract A B itemsA itemsB) (k + 1)
        (step okFetch (cycleExtract A B itemsA itemsB) ⟨[B], [A], itemsA, []⟩) :=
    crawlLoop_succ_cons _ _ (k + 1) _ B [] rfl
  have e3 : crawlLoop okFetch (cycleExtract A B itemsA itemsB) (k + 1)
        (⟨[], [A, B], itemsA ++ itemsB, []⟩ : CState L I)
      = ⟨[], [A, B], itemsA ++ itemsB, []⟩ :=
    crawlLoop_succ_nil _ _ k _ rfl
  simp only [crawl, List.isEmpty_cons, Bool.false_eq_true, if_false]
  rw [e1, hs1, e2, hs2, e3]

/-- Witness for C2 over the concrete cycle 0 → 1 → 0 with one item per
page: the crawl stops with an empty Frontier and each item appears once. -/
theorem crawl_cycle_terminates_witness :
    crawl okFetch (cycleExtract 0 1 [10] [20]) [0] 3
      = .ok (⟨[], [0, 1], [10, 20], []⟩ : CState Nat Nat) :=
  crawl_cycle_terminates Nat Nat 0 1 [10] [20] 3 (by decide) (by decide)

/-- C3: With start Locations `[A]`, extraction of A's page returning
`item1` and the link to B, and extraction of B's page returning `item2`
and no links, the crawl emits exactly `[item1, item2]` in that order, and
the Frontier is empty when the crawl completes. -/
theorem crawl_chain_output :
    ∀ (L I : Type) [DecidableEq L] (A B : L) (item1 item2 : I) (fuel : Nat),
    A ≠ B → 3 ≤ fuel →
    crawl okFetch (chainExtract A B item1 item2) [A] fuel
      = .ok ⟨[], [A, B], [item1, item2], []⟩ := by
  intro L I _ A B item1 item2 fuel hAB hfuel
  obtain ⟨k, rfl⟩ : ∃ k, fuel = k + 3 := ⟨fuel - 3, by omega⟩
  have hBA : B ≠ A := Ne.symm hAB
  have hs1 : step okFetch (chainExtract A B item1 item2) ⟨[A], [], [], []⟩
      = (⟨[B], [A], [item1], []⟩ : CState L I) := by
    simp [step, okFetch, chainExtract, enqueue, hBA]
  have hs2 : step okFetch (chainExtract A B item1 item2) ⟨[B], [A], [item1], []⟩
      = (⟨[], [A, B], [item1, item2], []⟩ : CState L I) := by
    simp [step, okFetch, chainExtract, enqueue, hBA]
  have e1 : crawlLoop okFetch (chainExtract A B item1 item2) (k + 3)
        (⟨[A], [], [], []⟩ : CState L I)
      = crawlLoop okFetch (chainExtract A B item1 item2) (k + 2)
        (step okFetch (chainExtract A B item1 item2) ⟨[A], [], [], []⟩) :=
    crawlLoop_succ_cons _ _ (k + 2) _ A [] rfl
  have e2 : crawlLoop okFetch (chainExtract A B item1 item2) (k + 2)
        (⟨[B], [A], [item1], []⟩ : CState L I)
      = crawlLoop okFetch (chainExtract A B item1 item2) (k + 1)
        (step okFetch (chainExtract A B item1 item2) ⟨[B], [A], [item1], []⟩) :=
    crawlLoop_succ_cons _ _ (k + 1) _ B [] rfl
  have e3 : crawlLoop okFetch (chainExtract A B item1 item2) (k + 1)
        (⟨[], [A, B], [item1, item2], []⟩ : CState L I)
      = ⟨[], [A, B], [item1, item2], []⟩ :=
    crawlLoop_succ_nil _ _ k _ rfl
  simp only [crawl, List.isEmpty_cons, Bool.false_eq_true, if_false]
  rw [e1, hs1, e2, hs2, e3]

/-- Witness for C3 over locations 0 and 1 with items 10 and 20: the output
sequence is `[10, 20]` and the final Frontier is empty. -/
theorem crawl_chain_output_witness :
    crawl okFetch (chainExtract 0 1 10 20) [0] 3
      = .ok (⟨[], [0, 1], [10, 20], []⟩ : CState Nat Nat) :=
  crawl_chain_output Nat Nat 0 1 10 20 3 (by decide) (by decide)

/-- C4: When the Fetcher fails on a Location B discovered from A, the
failure is recovered: in the two-page chain the output contains only
`item1` from A, the failure for B is logged in `failures`, and the crawl
still completes with an `ok` result and an empty Frontier (no exception
escapes); and in the branching graph where A also links to C, the
remaining Frontier is still processed after B's failure, so C's `item3`
is still emitted. -/
theorem crawl_fetch_failure_recovery :
    ∀ (L I : Type) [DecidableEq L] (A B C : L) (item1 item2 item3 : I) (fuel : Nat),
    A ≠ B → A ≠ C → B ≠ C → 4 ≤ fuel →
    crawl (failFetch B) (chainExtract A B item1 item2) [A] fuel
      = .ok ⟨[], [A, B], [item1], [B]⟩
    ∧ crawl (failFetch B) (branchExtract A B C item1 item3) [A] fuel
      = .ok ⟨[], [A, B, C], [item1, item3], [B]⟩ := by
  intro L I _ A B C item1 item2 item3 fuel hAB hAC hBC hfuel
  obtain ⟨k, rfl⟩ : ∃ k, fuel = k + 4 := ⟨fuel - 4, by omega⟩
  have hBA : B ≠ A := Ne.symm hAB
  have hCA : C ≠ A := Ne.symm hAC
  have hCB : C ≠ B := Ne.symm hBC
  constructor
  · have t1 : step (failFetch B) (chainExtract A B item1 item2) ⟨[A], [], [], []⟩
        = (⟨[B], [A], [item1], []⟩ : CState L I) := by
      simp [step, failFetch, chainExtract, enqueue, hAB, hBA]
    have t2 : step (failFetch B) (chainExtract A B item1 item2) ⟨[B], [A], [item1], []⟩
        = (⟨[], [A, B], [item1], [B]⟩ : CState L I) := by
      simp [step, failFetch, chainExtract, enqueue, hBA]
    have e1 : crawlLoop (failFetch B) (chainExtract A B item1 item2) (k + 4)
          (⟨[A], [], [], []⟩ : CState L I)
        = crawlLoop (failFetch B) (chainExtract A B item1 item2) (k + 3)
          (step (failFetch B) (chainExtract A B item1 item2) ⟨[A], [], [], []⟩) :=
      crawlLoop_succ_cons _ _ (k + 3) _ A [] rfl
    have e2 : crawlLoop (failFetch B) (chainExtract A B item1 item2) (k + 3)
          (⟨[B], [A], [item1], []⟩ : CState L I)
        = crawlLoop (failFetch B) (chainExtract A B item1 item2) (k + 2)
          (step (failFetch B) (chainExtract A B item1 item2) ⟨[B], [A], [item1], []⟩) :=
      crawlLoop_succ_cons _ _ (k + 2) _ B [] rfl
    have e3 : crawlLoop (failFetch B) (chainExtract A B item1 item2) (k + 2)
          (⟨[], [A, B], [item1], [B]⟩ : CState L I)
        = ⟨[], [A, B], [item1], [B]⟩ :=
      crawlLoop_succ_nil _ _ (k + 1) _ rfl
    simp only [crawl, List.isEmpty_cons, Bool.false_eq_true, if_false]
    rw [e1, t1, e2, t2, e3]
  · have u1 : step (failFetch B) (branchExtract A B C item1 item3) ⟨[A], [], [], []⟩
        = (⟨[B, C], [A], [item1], []⟩ : CState L I) := by
      simp [step, failFetch, branchExtract, enqueue, hAB, hBA, hCA, hCB]
    have u2 : step (failFetch B) (branchExtract A B C item1 item3)
          ⟨[B, C], [A], [item1], []⟩
        = (⟨[C], [A, B], [item1], [B]⟩ : CState L I) := by
      simp [step, failFetch, branchExtract, enqueue, hBA]
    have u3 : step (failFetch B) (branchExtract A B C item1 item3)
          ⟨[C], [A, B], [item1], [B]⟩
        = (⟨[], [A, B, C], [item1, item3], [B]⟩ : CState L I) := by
      simp [step, failFetch, branchExtract, enqueue, hCA, hCB]
    have e1 : crawlLoop (failFetch B) (branchExtract A B C item1 item3) (k + 4)
          (⟨[A], [], [], []⟩ : CState L I)
        = crawlLoop (failFetch B) (branchExtract A B C item1 item3) (k + 3)
          (step (failFetch B) (branchExtract A B C item1 item3) ⟨[A], [], [], []⟩) :=
      crawlLoop_succ_cons _ _ (k + 3) _ A [] rfl
    have e2 : crawlLoop (failFetch B) (branchExtract A B C item1 item3) (k + 3)
          (⟨[B, C], [A], [item1], []⟩ : CState L I)
        = crawlLoop (failFetch B) (branchExtract A B C item1 item3) (k + 2)
          (step (failFetch B) (branchExtract A B C item1 item3)
            ⟨[B, C], [A], [item1], []⟩) :=
      crawlLoop_succ_cons _ _ (k + 2) _ B [C] rfl
    have e3 : crawlLoop (failFetch B) (branchExtract A B C item1 item3) (k + 2)
          (⟨[C], [A, B], [item1], [B]⟩ : CState L I)
        = crawlLoop (failFetch B) (branchExtract A B C item1 item3) (k + 1)
          (step (failFetch B) (branchExtract A B C item1 item3)
            ⟨[C], [A, B], [item1], [B]⟩) :=
      crawlLoop_succ_cons _ _ (k + 1) _ C [] rfl
    have e4 : crawlLoop (failFetch B) (branchExtract A B C item1 item3) (k + 1)
          (⟨[], [A, B, C], [item1, item3], [B]⟩ : CState L I)
        = ⟨[], [A, B, C], [item1, item3], [B]⟩ :=
      crawlLoop_succ_nil _ _ k _ rfl
    simp only [crawl, List.isEmpty_cons, Bool.false_eq_true, if_false]
    rw [e1, u1, e2, u2, e3, u3, e4]

/-- Witness for C4 over locations 0, 1, 2 (with the Fetcher failing on 1):
only item 10 from location 0 survives in the chain run, the failure for
location 1 is logged, and in the branching run location 2 is still
processed and its item 30 emitted. -/
theorem crawl_fetch_failure_recovery_witness :
    crawl (failFetch 1) (chainExtract 0 1 10 20) [0] 4
      = .ok (⟨[], [0, 1], [10], [1]⟩ : CState Nat Nat)
    ∧ crawl (failFetch 1) (branchExtract 0 1 2 10 30) [0] 4
      = .ok (⟨[], [0, 1, 2], [10, 30], [1]⟩ : CState Nat Nat) :=
  crawl_fetch_failure_recovery Nat Nat 0 1 2 10 20 30 4
    (by decide) (by decide) (by decide) (by decide)

/-- C7 counterexample: the claim that every field of every emitted Item is
a string or an ordered sequence of strings fails on the code: a `div.quote`
whose `span.text` selector matches nothing yields an item whose `text`
field is Python `None` (the `.get()` result), which is neither. -/
theorem quote_item_field_not_string :
    ("text", PyVal.pyNone) ∈ quoteItem ⟨none, some "author", ["tag"], none⟩
    ∧ isStrOrList PyVal.pyNone = false := by
  constructor
  · simp [quoteItem, optVal]
  · rfl

/-- C7 amended: every field of an emitted quote item is a string, an
ordered sequence of strings, or `None` (when the corresponding `.get()`
selector matched nothing); the `tags` field is always a list of strings. -/
theorem quote_item_fields_shape :
    (∀ (q : QuoteSel) (fv : String × PyVal), fv ∈ quoteItem q →
      isStrOrList fv.2 = true ∨ fv.2 = PyVal.pyNone)
    ∧ (∀ q : QuoteSel, ("tags", PyVal.pyList q.tagsSel) ∈ quoteItem q) := by
  constructor
  · rintro q fv hm
    simp only [quoteItem, List.mem_cons, List.not_mem_nil, or_false] at hm
    rcases hm with h | h | h <;> subst h
    · cases q.textSel <;> simp [optVal, isStrOrList]
    · cases q.authorSel <;> simp [optVal, isStrOrList]
    · simp [isStrOrList]
  · intro q
    simp [quoteItem]

/-- Witness for the amended C7 at a concrete quote element with all
selectors missing: its `text` field is `None`, and its `tags` field is the
(empty) list of strings. -/
theorem quote_item_fields_shape_witness :
    (isStrOrList ("text", PyVal.pyNone).2 = true ∨ ("text", PyVal.pyNone).2 = PyVal.pyNone)
    ∧ ("tags", PyVal.pyList []) ∈ quoteItem ⟨none, none, [], none⟩ :=
  ⟨quote_item_fields_shape.1 ⟨none, none, [], none⟩ ("text", PyVal.pyNone)
      (by simp [quoteItem, optVal]),
   quote_item_fields_shape.2 ⟨none, none, [], none⟩⟩

/-- C10: `parse_author` emits the fields `name`, `birth_date` and
`birth_location` as-is (possibly `None` when their selectors match
nothing), but when the `div.author-description::text` selector matches
nothing it raises an `AttributeError` (`None` has no `strip`) instead of
emitting an item; the error branch is reachable for some author page. -/
theorem parse_author_description_strip :
    (∀ (r : AuthorSel) (d : String), r.descriptionSel = some d →
        parse_author r = .ok [("name", optVal r.nameSel),
          ("birth_date", optVal r.birthDateSel),
          ("birth_location", optVal r.birthLocationSel),
          ("description", .pyStr d.trim)])
    ∧ (∀ r : AuthorSel, r.descriptionSel = none →
        parse_author r = .error .attributeErrorNoneHasNoStrip)
    ∧ (∃ r : AuthorSel, parse_author r = .error .attributeErrorNoneHasNoStrip) := by
  refine ⟨?_, ?_, ⟨⟨none, none, none, none⟩, rfl⟩⟩
  · intro r d h
    simp [parse_author, h]
  · intro r h
    simp [parse_author, h]

/-- Witness for C10 at concrete author pages: a page with a description
emits the item with the other fields as-is (here `None`), and a page whose
description selector matches nothing raises instead of emitting. -/
theorem parse_author_description_strip_witness :
    parse_author ⟨none, some "1820-01-01", none, some "desc"⟩
      = .ok [("name", PyVal.pyNone), ("birth_date", PyVal.pyStr "1820-01-01"),
        ("birth_location", PyVal.pyNone), ("description", PyVal.pyStr "desc".trim)]
    ∧ parse_author ⟨some "x", none, none, none⟩
      = .error .attributeErrorNoneHasNoStrip :=
  ⟨parse_author_description_strip.1 ⟨none, some "1820-01-01", none, some "desc"⟩
      "desc" rfl,
   parse_author_description_strip.2.1 ⟨some "x", none, none, none⟩ rfl⟩

end Claims
